import Mathlib

/-!
Verification of the `freezeyt` Frozen-Flask compatibility layer
(`freezeyt/flask_frozen.py`, `freezeyt/progressbar.py`, `freezeyt/cli.py`).

Strings are modelled as `List Char`, read as byte sequences: Python's
`urllib.parse.unquote` decodes percent-escapes byte-wise and then re-decodes
the bytes as UTF-8; at the byte level this is exactly the byte-wise decoding
modelled here, so each `Char` in a modelled string stands for one byte.

The engine (`freezeyt.freeze`) and the standard/third-party library
functions used by the code under verification (`werkzeug.urls.url_parse`
and `url_unparse`, `urllib.parse.unquote`, `fnmatch.fnmatch`) are not part
of the repository sources; they are modelled here from their library
sources and documented behaviour, and the engine is kept abstract (its
outcome and filesystem effect are parameters).
-/

namespace Freezeyt

/-- `s.split(sep, 1)` as used by `werkzeug.urls.url_parse`: the part before
the first occurrence of `sep`, and, when `sep` occurs, the part after it. -/
def splitFirst (sep : Char) : List Char → List Char × Option (List Char)
  | [] => ([], none)
  | c :: cs =>
    if c = sep then ([], some cs)
    else
      let r := splitFirst sep cs
      (c :: r.1, r.2)

/-- Hexadecimal digit test, as accepted by `urllib.parse.unquote`. -/
def isHexDigitChar (c : Char) : Bool :=
  decide (('0' ≤ c ∧ c ≤ '9') ∨ ('a' ≤ c ∧ c ≤ 'f') ∨ ('A' ≤ c ∧ c ≤ 'F'))

/-- Value of a hexadecimal digit. -/
def hexVal (c : Char) : Nat :=
  if '0' ≤ c ∧ c ≤ '9' then c.toNat - '0'.toNat
  else if 'a' ≤ c ∧ c ≤ 'f' then c.toNat - 'a'.toNat + 10
  else c.toNat - 'A'.toNat + 10

/-- Model of `urllib.parse.unquote` at the byte level: a `%` followed by two
hexadecimal digits is replaced by the byte they denote; any other `%` is kept
literally. (Python decodes the resulting byte runs as UTF-8; reading modelled
strings as byte sequences makes that step the identity.) -/
def pyUnquote : List Char → List Char
  | [] => []
  | '%' :: c1 :: c2 :: rest =>
    if isHexDigitChar c1 ∧ isHexDigitChar c2 then
      Char.ofNat (16 * hexVal c1 + hexVal c2) :: pyUnquote rest
    else
      '%' :: pyUnquote (c1 :: c2 :: rest)
  | c :: rest => c :: pyUnquote rest

/-- The five URL components produced by `werkzeug.urls.url_parse`. -/
structure URLTuple where
  scheme : List Char
  netloc : List Char
  path : List Char
  query : List Char
  fragment : List Char
deriving DecidableEq, Repr

/-- Characters allowed in a URL scheme. -/
def schemeChar (c : Char) : Bool :=
  c.isAlpha || c.isDigit || decide (c = '+' ∨ c = '-' ∨ c = '.')

/-- A character that ends the network-location component. -/
def netlocEnd (c : Char) : Bool :=
  decide (c = '/' ∨ c = '?' ∨ c = '#')

/-- The scheme-recognition step of `werkzeug.urls.url_parse`: when the
input contains a `:` and the part before the first `:` is a nonempty run
of scheme characters, split it off (lower-cased); otherwise no scheme. -/
def parseScheme (u1 : List Char) : List Char × List Char :=
  match (splitFirst ':' u1).2 with
  | some rest =>
    if (splitFirst ':' u1).1 ≠ [] ∧ (splitFirst ':' u1).1.all schemeChar then
      ((splitFirst ':' u1).1.map Char.toLower, rest)
    else ([], u1)
  | none => ([], u1)

/-- The netloc-extraction step of `werkzeug.urls.url_parse`: a `//` start
introduces a network location running to the next `/`, `?` or `#`. -/
def parseNetloc (u2 : List Char) : List Char × List Char :=
  match u2 with
  | '/' :: '/' :: rest2 =>
    (rest2.takeWhile (fun c => ¬ netlocEnd c), rest2.dropWhile (fun c => ¬ netlocEnd c))
  | _ => ([], u2)

/-- Model of `werkzeug.urls.url_parse` (third-party dependency, modelled
from its source): split off the fragment at the first `#`, recognise an
optional scheme before a `:`, consume a `//`-introduced network location up
to the next `/`, `?` or `#` (rejecting a netloc with unbalanced square
brackets, `ValueError` in Python, here `none`), and split off the query at
the first `?`. -/
def urlParse (url : List Char) : Option URLTuple :=
  let p1 := splitFirst '#' url
  let fragment := p1.2.getD []
  let sr := parseScheme p1.1
  let nr := parseNetloc sr.2
  if ('[' ∈ nr.1 ∧ ']' ∉ nr.1) ∨ (']' ∈ nr.1 ∧ '[' ∉ nr.1) then none
  else
    let p3 := splitFirst '?' nr.2
    some ⟨sr.1, nr.1, p3.1, p3.2.getD [], fragment⟩

/-- Model of `werkzeug.urls.url_unparse` (`URL.to_url`): re-assemble the
five components; a nonempty netloc (or a scheme with a `//`-leading path)
re-introduces `//`, and empty query/fragment add no `?`/`#`. -/
def urlUnparse (t : URLTuple) : List Char :=
  let url :=
    if t.netloc ≠ [] ∨ (t.scheme ≠ [] ∧ t.path.take 2 = ['/', '/']) then
      let path := if t.path ≠ [] ∧ t.path.take 1 ≠ ['/'] then '/' :: t.path else t.path
      '/' :: '/' :: (t.netloc ++ path)
    else t.path
  let url := if t.scheme ≠ [] then t.scheme ++ ':' :: url else url
  let url := if t.query ≠ [] then url ++ '?' :: t.query else url
  if t.fragment ≠ [] then url ++ '#' :: t.fragment else url

/-- `make_relative_url(prefix, url)` from `flask_frozen.py`: assert that the
URL starts with the given root URL (`AssertionError`, here `none`), replace
the root by `/`, drop query and fragment via `url_parse`/`replace`/`to_url`,
and percent-decode the result with `unquote`. -/
def make_relative_url (pfx url : List Char) : Option (List Char) :=
  if pfx.isPrefixOf url then
    let rel := '/' :: url.drop pfx.length
    match urlParse rel with
    | some t => some (pyUnquote (urlUnparse { t with query := [], fragment := [] }))
    | none => none
  else none

/-- The query/fragment stripping that `make_relative_url` performs, stated
directly: keep the characters before the first `?` or `#`. -/
def stripQueryFragment (s : List Char) : List Char :=
  s.takeWhile (fun c => ¬ (c = '?' ∨ c = '#'))

/-- The hard-coded root URL that `Freezer.freeze` passes to the engine and
to `make_relative_url`. -/
def rootUrl : List Char := "http://localhost:80/".data

/-! ### `fnmatch` (Python standard library, used by `save_kept_files`) -/

/-- One step of scanning a `[...]` character class: the content up to the
closing `]` and the remainder, or `none` when the class is unterminated. -/
def scanClass : List Char → Option (List Char × List Char)
  | [] => none
  | c :: cs =>
    if c = ']' then some ([], cs)
    else
      match scanClass cs with
      | some (content, rest) => some (c :: content, rest)
      | none => none

/-- Parse a character class after a `[`: an optional leading `!` negates,
and a `]` directly after `[` (or after `[!`) is literal content. Returns
(negated, content, rest of the pattern). -/
def parseClass (s : List Char) : Option (Bool × List Char × List Char) :=
  match s with
  | '!' :: ']' :: rest2 =>
    (scanClass rest2).map (fun r => (true, ']' :: r.1, r.2))
  | '!' :: rest =>
    (scanClass rest).map (fun r => (true, r.1, r.2))
  | ']' :: rest2 =>
    (scanClass rest2).map (fun r => (false, ']' :: r.1, r.2))
  | _ =>
    (scanClass s).map (fun r => (false, r.1, r.2))

/-- Membership of a character in a class body: `a-b` denotes a range
(with `-` at either end taken literally), anything else a literal. -/
def matchClass : List Char → Char → Bool
  | [], _ => false
  | a :: '-' :: b :: rest, c =>
    decide (a ≤ c ∧ c ≤ b) || matchClass rest c
  | a :: rest, c => decide (a = c) || matchClass rest c

/-- Fuelled glob matcher implementing `fnmatch.fnmatch` on POSIX:
`*` matches any sequence, `?` any single character, `[...]` a class, an
unterminated `[` is literal; other characters match themselves. Each step
consumes at least one unit of pattern or string, so
`pattern.length + string.length + 1` fuel always suffices. -/
def globMatchF : Nat → List Char → List Char → Bool
  | 0, _, _ => false
  | n + 1, p, s =>
    match p, s with
    | [], s' => s'.isEmpty
    | '*' :: ps, [] => globMatchF n ps []
    | '*' :: ps, c :: cs =>
      globMatchF n ps (c :: cs) || globMatchF n ('*' :: ps) cs
    | '?' :: ps, _ :: cs => globMatchF n ps cs
    | '[' :: ps, c :: cs =>
      (match parseClass ps with
       | some (neg, content, rest) =>
         (if neg then ! matchClass content c else matchClass content c)
           && globMatchF n rest cs
       | none => decide ('[' = c) && globMatchF n ps cs)
    | a :: ps, c :: cs => decide (a = c) && globMatchF n ps cs
    | _ :: _, [] => false

/-- `fnmatch.fnmatch(s, p)` (pattern `p` against name `s`). -/
def globMatch (p s : List Char) : Bool :=
  globMatchF (p.length + s.length + 1) p s

/-! ### Filesystem model and `Freezer.freeze` -/

/-- The destination tree: whether the destination root directory exists,
and the files under it as an association list from destination-relative
path to content. -/
structure FS where
  rootExists : Bool
  files : List (String × String)
deriving DecidableEq, Repr

/-- First-match lookup in a path→content association list. -/
def fsLookup (d : List (String × String)) (p : String) : Option String :=
  match d with
  | [] => none
  | e :: es => if e.1 = p then some e.2 else fsLookup es p

/-- The paths of a file listing. -/
def fsPaths (d : List (String × String)) : List String :=
  d.map Prod.fst

/-- Write a file, overwriting any previous content at that path
(`shutil.copyfile` semantics). -/
def setFile (d : List (String × String)) (p c : String) : List (String × String) :=
  d.filter (fun e => e.1 ≠ p) ++ [(p, c)]

/-- `Path(filename).name` for the slash-free relative paths produced by
`walk_directory`: the component after the last `/`. -/
def pathName (s : List Char) : List Char :=
  (s.reverse.takeWhile (fun c => c ≠ '/')).reverse

/-- Python's `n.strip('/')`: drop leading and trailing slashes. -/
def stripSlashes (s : List Char) : List Char :=
  ((s.dropWhile (fun c => c = '/')).reverse.dropWhile (fun c => c = '/')).reverse

/-- The per-file keep test of `save_kept_files`: patterns without `/` are
matched against the file's base name, patterns with `/` are stripped of
surrounding slashes and matched against the whole relative path. -/
def keptFilePred (patterns : List String) (filename : String) : Bool :=
  let basenameKept := patterns.filter (fun n => ¬ n.data.contains '/')
  let pathKept :=
    (patterns.filter (fun n => n.data.contains '/')).map
      (fun n => String.mk (stripSlashes n.data))
  basenameKept.any (fun pat => globMatch pat.data (pathName filename.data))
    || pathKept.any (fun pat => globMatch pat.data filename.data)

/-- `save_kept_files(root, kept_file_patterns)`: copy every file under the
root whose name matches a pattern into a temporary directory, modelled as
filtering the file listing. -/
def save_kept_files (files : List (String × String)) (patterns : List String) :
    List (String × String) :=
  files.filter (fun e => keptFilePred patterns e.1)

/-- `restore_kept_files(kept_file_dir, root, restore_all)`: copy each saved
file back, overwriting when `restore_all` is set and otherwise only filling
in paths that do not exist yet. -/
def restore_kept_files (saved : List (String × String))
    (dest : List (String × String)) (restoreAll : Bool) : List (String × String) :=
  match saved with
  | [] => dest
  | e :: es =>
    restore_kept_files es
      (if restoreAll ∨ (fsLookup dest e.1).isNone then setFile dest e.1 e.2 else dest)
      restoreAll

/-- The app-config flags that `Freezer.freeze` reads. -/
structure FreezerConfig where
  removeExtraFiles : Bool
  destinationIgnore : List String
  skipExisting : Bool
deriving DecidableEq, Repr

/-- The kept-file patterns computed by `Freezer.freeze`: everything when
`FREEZER_REMOVE_EXTRA_FILES` is false, else `FREEZER_DESTINATION_IGNORE`;
everything when `FREEZER_SKIP_EXISTING` is set. -/
def keptFilePatterns (cfg : FreezerConfig) : List String :=
  let kp := if ¬ cfg.removeExtraFiles then ["*"] else cfg.destinationIgnore
  if cfg.skipExisting then ["*"] else kp

/-- How the engine's `freeze` call ends: normally, with the list of
absolute URLs for which the `page_frozen` hook fired (failed tasks fire
only `page_failed` and are not in this list), or raising one of its
classified errors, or any other exception. -/
inductive EngineOutcome where
  | ok (frozenUrls : List (List Char))
  | externalURLError
  | relativeURLError
  | unexpectedStatus (url : List Char) (status : List Char)
  | otherError
deriving DecidableEq, Repr

/-- Exceptions escaping `Freezer.freeze`. -/
inductive PyError where
  | valueError (msg : List Char)
  | assertionError
  | other
deriving DecidableEq, Repr

/-- Python `set.add`. -/
def setInsert (l : List (List Char)) (x : List Char) : List (List Char) :=
  if x ∈ l then l else l ++ [x]

/-- The `record_url` hook accumulated over the `page_frozen` events of a
run: each frozen URL is made prefix-relative and added to the set; a URL
on which `make_relative_url` fails raises out of the engine call. -/
def recordUrls (acc : List (List Char)) : List (List Char) → Except PyError (List (List Char))
  | [] => .ok acc
  | u :: us =>
    match make_relative_url rootUrl u with
    | some r => recordUrls (setInsert acc r) us
    | none => .error .assertionError

/-- `Freezer.freeze`, with the engine abstracted by its outcome and its
effect on the destination tree: save kept files, remove the destination
root if it exists, run the engine, translate `ExternalURLError` and
`RelativeURLError` to `ValueError('External URLs not supported')` and
`UnexpectedStatus` to a `ValueError` naming the status and the
prefix-relative URL, and in a `finally` block re-create the destination
root and restore the kept files. -/
def freezerFreeze (cfg : FreezerConfig) (outcome : EngineOutcome)
    (engineFS : FS → FS) (fs : FS) :
    Except PyError (List (List Char)) × FS :=
  let kp := keptFilePatterns cfg
  let keptDir : Option (List (String × String)) :=
    if kp ≠ [] then some (save_kept_files fs.files kp) else none
  let fs1 := if fs.rootExists then { rootExists := false, files := [] } else fs
  let fs2 := engineFS fs1
  let result : Except PyError (List (List Char)) :=
    match outcome with
    | .ok frozen => recordUrls [] frozen
    | .externalURLError => .error (.valueError "External URLs not supported".data)
    | .relativeURLError => .error (.valueError "External URLs not supported".data)
    | .unexpectedStatus url status =>
      match make_relative_url rootUrl url with
      | some rel =>
        .error (.valueError
          ("Unexpected status '".data ++ status ++ "' on URL ".data ++ rel))
      | none => .error .assertionError
    | .otherError => .error .other
  let fs3 : FS := { fs2 with rootExists := true }
  let fs4 : FS :=
    match keptDir with
    | some saved =>
      { fs3 with files := restore_kept_files saved fs3.files cfg.skipExisting }
    | none => fs3
  (result, fs4)

/-! ### The `url_for` handler of `Freezer.freeze` -/

/-- State shared by `start_hook` and `handle_url_for`: whether the start
hook has run (`freeze_info` is set), the `handling_url_for` guard flag,
and the URLs passed to `freeze_info.add_url`, in order. -/
structure UrlForState where
  started : Bool
  handling : Bool
  added : List (List Char)
deriving DecidableEq, Repr

/-- The state before the engine fires the `start` hook. -/
def initialUrlForState : UrlForState :=
  { started := false, handling := false, added := [] }

/-- `start_hook`: record the live freeze info and enable the guard flag. -/
def startHook (s : UrlForState) : UrlForState :=
  { s with started := true, handling := true }

/-- One invocation of the app's `url_for` as seen by `handle_url_for`:
the externally-qualified URL it resolves to, and the nested `url_for`
invocations that fire while the handler holds the guard flag down
(the `url_for(endpoint, **values)` call inside the handler re-enters it). -/
inductive UrlForCall : Type where
  | call (url : List Char) (nested : List UrlForCall)

mutual

/-- `handle_url_for`: when the guard flag is up, lower it, let the nested
invocations run, `add_url` the externally-qualified URL, and raise the flag
again; when the flag is down, do nothing. -/
def handle_url_for (s : UrlForState) : UrlForCall → UrlForState
  | .call u ns =>
    if s.handling then
      let s2 := handleUrlForList { s with handling := false } ns
      { s2 with added := s2.added ++ [u], handling := true }
    else s

/-- A sequence of `url_for` invocations, run left to right. -/
def handleUrlForList (s : UrlForState) : List UrlForCall → UrlForState
  | [] => s
  | c :: cs => handleUrlForList (handle_url_for s c) cs

end

/-! ### `progressbar.py` -/

/-- The three counters of the engine's `FreezeInfo`. -/
structure FreezeInfoCounts where
  total : Int
  done : Int
  failed : Int
deriving DecidableEq, Repr

/-- The enlighten counter state that `ProgressBarPlugin` mutates. -/
structure BarState where
  total : Int
  count : Int
  successCount : Int
deriving DecidableEq, Repr

/-- `ProgressBarPlugin.update_bar`: overwrite the main counter's total and
count with the freeze info's totals and set the success subcounter to
done minus failed. -/
def update_bar (fi : FreezeInfoCounts) (s : BarState) : BarState :=
  let s := { s with total := fi.total }
  let s := { s with count := fi.done }
  { s with successCount := fi.done - fi.failed }

/-- `LogPlugin._summary`: compute `done / total` (ZeroDivisionError, here
`none`, when `total` is zero) and the error suffix shown when `failed` is
nonzero; the purely textual layout of the summary line is not modelled. -/
def logPluginSummary (fi : FreezeInfoCounts) : Option (Int × Int × ℚ × Option Int) :=
  if fi.total = 0 then none
  else
    some (fi.done, fi.total, (fi.done : ℚ) / (fi.total : ℚ),
      if fi.failed ≠ 0 then some fi.failed else none)

/-! ### `cli.py` -/

/-- The YAML configuration file, once checked to be a dictionary: the
`prefix`, `extra_pages` and `extra_files` keys (`none` for an absent or
null key). The `prefix` key is the `pfx` field. -/
structure FileConfig where
  pfx : Option String
  extra_pages : Option (List String)
  extra_files : Option String
deriving DecidableEq, Repr

/-- The `cli_params` dictionary passed to `freeze`. The `prefix` key is
the `pfx` field (`none` when the key is absent). -/
structure CliParams where
  pfx : Option String := none
  extra_pages : List String := []
  extra_files : Option String := none
deriving DecidableEq, Repr

/-- The parameter assembly of `cli.main`: start from the `--extra-page`
options, add `--prefix` when given, and when a config file is given take
its `prefix` only if `--prefix` was absent, extend the extra pages with
the file's `extra_pages`, and copy its `extra_files`. -/
def mainParams (pfxOpt : Option String) (extraPage : List String)
    (cfgOpt : Option FileConfig) : CliParams :=
  let p : CliParams := { extra_pages := extraPage }
  let p :=
    match pfxOpt with
    | some s => { p with pfx := some s }
    | none => p
  match cfgOpt with
  | none => p
  | some fc =>
    let p := if fc.pfx ≠ none ∧ pfxOpt = none then { p with pfx := fc.pfx } else p
    let p :=
      match fc.extra_pages with
      | some eps => { p with extra_pages := p.extra_pages ++ eps }
      | none => p
    { p with extra_files := fc.extra_files }

/-! ## Helper lemmas -/

theorem freezerFreeze_fst (cfg : FreezerConfig) (outcome : EngineOutcome)
    (eff : FS → FS) (fs : FS) :
    (freezerFreeze cfg outcome eff fs).1 =
      match outcome with
      | .ok frozen => recordUrls [] frozen
      | .externalURLError => .error (.valueError "External URLs not supported".data)
      | .relativeURLError => .error (.valueError "External URLs not supported".data)
      | .unexpectedStatus url status =>
        match make_relative_url rootUrl url with
        | some rel =>
          .error (.valueError
            ("Unexpected status '".data ++ status ++ "' on URL ".data ++ rel))
        | none => .error .assertionError
      | .otherError => .error .other := rfl

theorem freezerFreeze_files (cfg : FreezerConfig) (outcome : EngineOutcome)
    (W : List (String × String)) (fs : FS) :
    (freezerFreeze cfg outcome (fun _ => ⟨true, W⟩) fs).2.files =
      if keptFilePatterns cfg = [] then W
      else
        restore_kept_files (save_kept_files fs.files (keptFilePatterns cfg)) W
          cfg.skipExisting := by
  by_cases h : keptFilePatterns cfg = [] <;>
    simp [freezerFreeze, h]

/-! ## Theorems for the claims -/

/-- C3: whatever the engine's outcome and whatever it did to the
destination tree (it may have removed the destination root entirely),
the `finally` block of `Freezer.freeze` re-creates the destination root,
so the root directory exists when `Freezer.freeze` finishes, whether it
returns or propagates an error. -/
theorem freezer_freeze_root_recreated (cfg : FreezerConfig) (outcome : EngineOutcome)
    (eff : FS → FS) (fs : FS) :
    ((freezerFreeze cfg outcome eff fs).2).rootExists = true := by
  unfold freezerFreeze
  by_cases h : keptFilePatterns cfg = [] <;> simp [h]

/-- C2: when the engine raises `ExternalURLError` or `RelativeURLError`,
`Freezer.freeze` raises `ValueError('External URLs not supported')`; when
it raises `UnexpectedStatus`, `Freezer.freeze` raises a `ValueError` whose
message is built from exactly the carried status code and the
prefix-relative form of the offending URL (so it contains both and exposes
no engine-internal error object). -/
theorem freezer_freeze_error_translation (cfg : FreezerConfig) (eff : FS → FS) (fs : FS) :
    ((freezerFreeze cfg .externalURLError eff fs).1
        = .error (.valueError "External URLs not supported".data))
    ∧ ((freezerFreeze cfg .relativeURLError eff fs).1
        = .error (.valueError "External URLs not supported".data))
    ∧ (∀ url status rel, make_relative_url rootUrl url = some rel →
        (freezerFreeze cfg (.unexpectedStatus url status) eff fs).1
          = .error (.valueError
              ("Unexpected status '".data ++ status ++ "' on URL ".data ++ rel))) := by
  refine ⟨rfl, rfl, fun url status rel h => ?_⟩
  rw [freezerFreeze_fst]
  simp [h]

/-- Witness for C2: a 404 on `http://localhost:80/a` is reported as a
`ValueError` naming the status and the relative URL `/a`. -/
theorem freezer_freeze_error_translation_witness :
    (freezerFreeze ⟨true, [], false⟩
        (.unexpectedStatus "http://localhost:80/a".data "404 NOT FOUND".data)
        id ⟨true, []⟩).1
      = .error (.valueError
          ("Unexpected status '".data ++ "404 NOT FOUND".data
            ++ "' on URL ".data ++ "/a".data)) :=
  (freezer_freeze_error_translation ⟨true, [], false⟩ id ⟨true, []⟩).2.2
    "http://localhost:80/a".data "404 NOT FOUND".data "/a".data (by decide)

/-- C6: `update_bar` overwrites the whole counter state from the hook's
freeze info, so after any sequence of `page_frozen`/`page_failed` hook
invocations ending in one whose counters satisfy
`failed ≤ done ≤ total`, the main counter satisfies `count ≤ total` and
the success subcounter equals `done - failed`, which is non-negative. -/
theorem update_bar_counters_consistent (fis : List FreezeInfoCounts)
    (fi : FreezeInfoCounts) (s : BarState)
    (h1 : fi.failed ≤ fi.done) (h2 : fi.done ≤ fi.total) :
    ((update_bar fi (fis.foldl (fun b f => update_bar f b) s)).count
        ≤ (update_bar fi (fis.foldl (fun b f => update_bar f b) s)).total)
    ∧ ((update_bar fi (fis.foldl (fun b f => update_bar f b) s)).successCount
        = fi.done - fi.failed)
    ∧ (0 ≤ (update_bar fi (fis.foldl (fun b f => update_bar f b) s)).successCount) := by
  refine ⟨?_, rfl, ?_⟩ <;> simp [update_bar] <;> omega

/-- Witness for C6: one `page_frozen` then a `page_failed` with counters
(total 2, done 2, failed 1). -/
theorem update_bar_counters_consistent_witness :
    ((update_bar ⟨2, 2, 1⟩ ([⟨2, 1, 0⟩].foldl (fun b f => update_bar f b) ⟨100, 0, 0⟩)).count
        ≤ (update_bar ⟨2, 2, 1⟩ ([⟨2, 1, 0⟩].foldl (fun b f => update_bar f b) ⟨100, 0, 0⟩)).total)
    ∧ ((update_bar ⟨2, 2, 1⟩ ([⟨2, 1, 0⟩].foldl (fun b f => update_bar f b) ⟨100, 0, 0⟩)).successCount
        = (2 : Int) - 1)
    ∧ (0 ≤ (update_bar ⟨2, 2, 1⟩ ([⟨2, 1, 0⟩].foldl (fun b f => update_bar f b) ⟨100, 0, 0⟩)).successCount) :=
  update_bar_counters_consistent [⟨2, 1, 0⟩] ⟨2, 2, 1⟩ ⟨100, 0, 0⟩ (by decide) (by decide)

/-- C7: `LogPlugin._summary` divides `done_task_count` by
`total_task_count`; when the observed counters satisfy `1 ≤ total` (as
they do in any `page_frozen`/`page_failed` callback, the triggering task
being counted) the division is defined and the zero-division branch is
unreachable. -/
theorem logPluginSummary_no_div_by_zero (fi : FreezeInfoCounts) (h : 1 ≤ fi.total) :
    (logPluginSummary fi).isSome = true := by
  unfold logPluginSummary
  rw [if_neg (by omega)]
  rfl

/-- Witness for C7: the summary is defined for counters (1, 1, 0). -/
theorem logPluginSummary_no_div_by_zero_witness :
    (logPluginSummary ⟨1, 1, 0⟩).isSome = true :=
  logPluginSummary_no_div_by_zero ⟨1, 1, 0⟩ (by decide)

/-- C10: in `cli.main`, a `--prefix` on the command line always wins (the
config file's `prefix` is used only when `--prefix` is absent), and the
extra pages passed to `freeze` are the `--extra-page` options followed by
the config file's `extra_pages`, so neither source is dropped. -/
theorem mainParams_merge (s : String) (pfxOpt : Option String)
    (ep : List String) (fc : FileConfig) (cfgOpt : Option FileConfig) :
    ((mainParams (some s) ep cfgOpt).pfx = some s)
    ∧ ((mainParams none ep (some fc)).pfx = fc.pfx)
    ∧ ((mainParams none ep none).pfx = none)
    ∧ ((mainParams pfxOpt ep (some fc)).extra_pages = ep ++ fc.extra_pages.getD [])
    ∧ ((mainParams pfxOpt ep none).extra_pages = ep) := by
  refine ⟨?_, ?_, rfl, ?_, ?_⟩
  · cases cfgOpt with
    | none => rfl
    | some fc' =>
      cases h : fc'.pfx <;> cases h2 : fc'.extra_pages <;> simp [mainParams, h, h2]
  · cases h : fc.pfx <;> cases h2 : fc.extra_pages <;> simp [mainParams, h, h2]
  · cases pfxOpt <;> cases h : fc.pfx <;> cases h2 : fc.extra_pages <;>
      simp [mainParams, h, h2]
  · cases pfxOpt <;> simp [mainParams]

theorem handle_url_for_no_flag (s : UrlForState) (c : UrlForCall)
    (h : s.handling = false) : handle_url_for s c = s := by
  cases c with
  | call u ns => rw [handle_url_for, if_neg (by simp [h])]

theorem handleUrlForList_no_flag (cs : List UrlForCall) (s : UrlForState)
    (h : s.handling = false) : handleUrlForList s cs = s := by
  induction cs with
  | nil => rfl
  | cons c cs ih =>
    rw [handleUrlForList, handle_url_for_no_flag s c h]
    exact ih

/-- C5: before the `start` hook fires the guard flag is down and
`handle_url_for` adds nothing; once `start` has fired (raising the flag),
each `url_for` invocation adds exactly its externally-qualified URL, and
every `url_for` invocation nested inside the handler's own
`url_for`/`add_url` call — which runs with the flag lowered — adds
nothing, so the handler never recurses unboundedly. -/
theorem handle_url_for_guard (s : UrlForState) (u : List Char) (ns : List UrlForCall) :
    (initialUrlForState.handling = false)
    ∧ ((startHook s).handling = true)
    ∧ (s.handling = false → handle_url_for s (.call u ns) = s)
    ∧ (s.handling = true →
        handle_url_for s (.call u ns) = { s with added := s.added ++ [u] }) := by
  refine ⟨rfl, rfl, fun h => handle_url_for_no_flag s _ h, fun h => ?_⟩
  rw [handle_url_for, if_pos (by simp [h]),
    handleUrlForList_no_flag ns { s with handling := false } rfl]
  cases s
  simp_all

/-- Witness for C5: with the flag down nothing is added; after the start
hook a call with one nested re-entrant call adds exactly one URL. -/
theorem handle_url_for_guard_witness :
    (handle_url_for initialUrlForState (.call "http://localhost:80/a".data []) =
        initialUrlForState)
    ∧ (handle_url_for (startHook initialUrlForState)
          (.call "http://localhost:80/a".data [.call "http://localhost:80/a".data []]) =
        { startHook initialUrlForState with added := [] ++ ["http://localhost:80/a".data] }) :=
  ⟨(handle_url_for_guard initialUrlForState "http://localhost:80/a".data []).2.2.1 rfl,
   (handle_url_for_guard (startHook initialUrlForState) "http://localhost:80/a".data
      [.call "http://localhost:80/a".data []]).2.2.2 rfl⟩

theorem mem_setInsert (l : List (List Char)) (x r : List Char) :
    r ∈ setInsert l x ↔ r ∈ l ∨ r = x := by
  unfold setInsert
  by_cases h : x ∈ l
  · rw [if_pos h]
    constructor
    · exact fun hr => .inl hr
    · rintro (hr | rfl)
      · exact hr
      · exact h
  · simp [h]

theorem nodup_setInsert (l : List (List Char)) (x : List Char) (h : l.Nodup) :
    (setInsert l x).Nodup := by
  unfold setInsert
  by_cases hx : x ∈ l <;> simp [hx, List.nodup_append, h]

theorem recordUrls_ok_characterizes (us : List (List Char)) :
    ∀ acc l, recordUrls acc us = .ok l →
      (acc.Nodup → l.Nodup)
      ∧ (∀ r, r ∈ l ↔ r ∈ acc ∨ ∃ u ∈ us, make_relative_url rootUrl u = some r) := by
  induction us with
  | nil =>
    intro acc l h
    rw [recordUrls] at h
    cases h
    exact ⟨id, by simp⟩
  | cons u us ih =>
    intro acc l h
    rw [recordUrls] at h
    cases hu : make_relative_url rootUrl u with
    | none => rw [hu] at h; cases h
    | some r0 =>
      rw [hu] at h
      obtain ⟨hnd, hmem⟩ := ih (setInsert acc r0) l h
      refine ⟨fun ha => hnd (nodup_setInsert acc r0 ha), fun r => ?_⟩
      rw [hmem r, mem_setInsert]
      constructor
      · rintro ((hr | rfl) | ⟨v, hv, hvr⟩)
        · exact .inl hr
        · exact .inr ⟨u, by simp, hu⟩
        · exact .inr ⟨v, by simp [hv], hvr⟩
      · rintro (hr | ⟨v, hv, hvr⟩)
        · exact .inl (.inl hr)
        · rcases List.mem_cons.mp hv with rfl | hv'
          · rw [hu] at hvr
            cases hvr
            exact .inl (.inr rfl)
          · exact .inr ⟨v, hv', hvr⟩

/-- C4: when `Freezer.freeze` completes without raising, the returned set
is exactly the set of prefix-relative URLs (query and fragment stripped,
percent-decoded) of the tasks for which the `page_frozen` hook fired —
one element per distinct relative URL (the result has no duplicates).
Failed tasks fire only `page_failed`, which `Freezer.freeze` does not
hook, so they contribute nothing. -/
theorem freezer_freeze_returns_recorded_set (cfg : FreezerConfig)
    (eff : FS → FS) (fs : FS) (frozen : List (List Char)) (l : List (List Char))
    (h : (freezerFreeze cfg (.ok frozen) eff fs).1 = .ok l) :
    l.Nodup ∧ ∀ r, (r ∈ l ↔ ∃ u ∈ frozen, make_relative_url rootUrl u = some r) := by
  rw [freezerFreeze_fst] at h
  obtain ⟨hnd, hmem⟩ := recordUrls_ok_characterizes frozen [] l h
  refine ⟨hnd List.nodup_nil, fun r => ?_⟩
  rw [hmem r]
  simp

/-- Witness for C4: freezing `/a` and `/a?x=1` (the same task key) returns
the singleton set containing `/a`. -/
theorem freezer_freeze_returns_recorded_set_witness :
    (["/a".data] : List (List Char)).Nodup
    ∧ ∀ r, (r ∈ (["/a".data] : List (List Char)) ↔
        ∃ u ∈ ["http://localhost:80/a".data, "http://localhost:80/a?x=1".data],
          make_relative_url rootUrl u = some r) :=
  freezer_freeze_returns_recorded_set ⟨true, [], false⟩ id ⟨true, []⟩
    ["http://localhost:80/a".data, "http://localhost:80/a?x=1".data]
    ["/a".data] (by rfl)

theorem splitFirst_cons_ne (sep c : Char) (cs : List Char) (h : c ≠ sep) :
    splitFirst sep (c :: cs) = (c :: (splitFirst sep cs).1, (splitFirst sep cs).2) := by
  simp [splitFirst, h]

theorem splitFirst_fst (sep : Char) (s : List Char) :
    (splitFirst sep s).1 = s.takeWhile (fun c => decide (c ≠ sep)) := by
  induction s with
  | nil => rfl
  | cons c cs ih =>
    by_cases h : c = sep
    · subst h
      simp [splitFirst]
    · rw [splitFirst_cons_ne sep c cs h, List.takeWhile_cons]
      simp [h, ih]

theorem takeWhile_takeWhile_char (p q : Char → Bool) (s : List Char) :
    (s.takeWhile p).takeWhile q = s.takeWhile (fun c => p c && q c) := by
  induction s with
  | nil => rfl
  | cons c cs ih =>
    by_cases hp : p c
    · by_cases hq : q c <;> simp [List.takeWhile_cons, hp, hq, ih]
    · simp [List.takeWhile_cons, hp]

theorem splitFirst_path (t : List Char) :
    (splitFirst '?' ((splitFirst '#' t).1)).1 = stripQueryFragment t := by
  rw [splitFirst_fst, splitFirst_fst, takeWhile_takeWhile_char]
  unfold stripQueryFragment
  congr 1
  funext c
  by_cases h1 : c = '#' <;> by_cases h2 : c = '?' <;> simp [h1, h2]

theorem parseScheme_slash (t : List Char) : parseScheme ('/' :: t) = ([], '/' :: t) := by
  unfold parseScheme
  rw [splitFirst_cons_ne ':' '/' t (by decide)]
  cases h : (splitFirst ':' t).2 with
  | none => rfl
  | some rest =>
    have hsc : schemeChar '/' = false := by decide
    simp [List.all_cons, hsc]

theorem parseNetloc_noslash (t : List Char) (h : t.head? ≠ some '/') :
    parseNetloc ('/' :: t) = ([], '/' :: t) := by
  cases t with
  | nil => rfl
  | cons c cs =>
    have hc : c ≠ '/' := fun hcc => h (by simp [hcc])
    unfold parseNetloc
    split
    · next rest2 heq =>
      rw [List.cons.injEq, List.cons.injEq] at heq
      exact absurd heq.2.1 hc
    · rfl

theorem head_splitFirst_fst (sep : Char) (t : List Char) (h : t.head? ≠ some '/') :
    ((splitFirst sep t).1).head? ≠ some '/' := by
  cases t with
  | nil => simp [splitFirst]
  | cons c cs =>
    by_cases hc : c = sep
    · subst hc
      simp [splitFirst]
    · rw [splitFirst_cons_ne sep c cs hc]
      simpa using h

theorem urlParse_slash (t : List Char) (h : t.head? ≠ some '/') :
    urlParse ('/' :: t) =
      some ⟨[], [], '/' :: stripQueryFragment t,
        ((splitFirst '?' ('/' :: (splitFirst '#' t).1)).2).getD [],
        ((splitFirst '#' t).2).getD []⟩ := by
  unfold urlParse
  rw [splitFirst_cons_ne '#' '/' t (by decide)]
  simp only
  rw [parseScheme_slash ((splitFirst '#' t).1)]
  simp only
  rw [parseNetloc_noslash ((splitFirst '#' t).1) (head_splitFirst_fst '#' t h)]
  simp only
  rw [if_neg (by simp)]
  have hq : (splitFirst '?' ('/' :: (splitFirst '#' t).1)).1 =
      '/' :: stripQueryFragment t := by
    rw [splitFirst_cons_ne '?' '/' _ (by decide)]
    simp only
    rw [splitFirst_path t]
  rw [hq]

theorem urlUnparse_path_only (path : List Char) :
    urlUnparse ⟨[], [], path, [], []⟩ = path := by
  simp [urlUnparse]

theorem pyUnquote_slash (r : List Char) : pyUnquote ('/' :: r) = '/' :: pyUnquote r := by
  cases r with
  | nil => rfl
  | cons c1 r1 =>
    cases r1 with
    | nil => rfl
    | cons c2 r2 => rfl

/-- C1 (amended): for every URL that starts with the configured root URL
and whose part after the root does not itself begin with a slash,
`make_relative_url` succeeds and returns `/` followed by that part with
everything from the first `?` or `#` removed and percent-escapes then
decoded; and for every URL that does not start with the root it fails
(the `assert` fires). When the part after the root begins with a slash,
the slash-prepended string starts with `//` and is parsed as a network
location, and the result can differ from the described form (see the
counterexample). -/
theorem make_relative_url_root_relative (pfx u : List Char) :
    (pfx.isPrefixOf u = true → (u.drop pfx.length).head? ≠ some '/' →
      make_relative_url pfx u =
        some ('/' :: pyUnquote (stripQueryFragment (u.drop pfx.length))))
    ∧ (pfx.isPrefixOf u = false → make_relative_url pfx u = none) := by
  constructor
  · intro hp hh
    unfold make_relative_url
    rw [if_pos hp]
    dsimp only
    rw [urlParse_slash (u.drop pfx.length) hh]
    simp only
    rw [urlUnparse_path_only, pyUnquote_slash]
  · intro hp
    unfold make_relative_url
    rw [if_neg (by simp [hp])]

/-- Witness for C1: the root-prefixed URL `…/foo%20bar?x=1#f` is mapped to
`/foo bar` — the slash plus the decoded, query- and fragment-stripped
remainder — and a non-prefixed URL fails. -/
theorem make_relative_url_root_relative_witness :
    (make_relative_url "http://localhost:80/".data
        "http://localhost:80/foo%20bar?x=1#f".data =
      some ('/' :: pyUnquote (stripQueryFragment
        ("http://localhost:80/foo%20bar?x=1#f".data.drop
          "http://localhost:80/".data.length))))
    ∧ (make_relative_url "http://localhost:80/".data "http://other.example/".data = none) :=
  ⟨(make_relative_url_root_relative "http://localhost:80/".data
      "http://localhost:80/foo%20bar?x=1#f".data).1 (by decide) (by decide),
   (make_relative_url_root_relative "http://localhost:80/".data
      "http://other.example/".data).2 (by decide)⟩

/-- Counterexample to C1 as stated: for `http://localhost:80///x`, which
starts with the configured root URL, the part after the root is `//x`, so
the claim's described result is `///x`; the code returns `/x` instead
(the `//`-leading string is parsed as a network location and collapsed by
`url_unparse`). Moreover `http://localhost:80//[x` starts with the root
but the call fails (`ValueError: Invalid IPv6 URL` inside `url_parse`),
refuting "defined for exactly those u that start with the prefix". -/
theorem make_relative_url_claimed_form_counterexample :
    (make_relative_url "http://localhost:80/".data "http://localhost:80///x".data =
        some "/x".data)
    ∧ ('/' :: pyUnquote (stripQueryFragment
          ("http://localhost:80///x".data.drop "http://localhost:80/".data.length)) =
        "///x".data)
    ∧ ("/x".data ≠ "///x".data)
    ∧ (make_relative_url "http://localhost:80/".data "http://localhost:80//[x".data = none)
    ∧ ("http://localhost:80/".data.isPrefixOf "http://localhost:80//[x".data = true) := by
  refine ⟨?_, ?_, ?_, ?_, ?_⟩ <;> decide

theorem fsLookup_isSome_iff_mem (d : List (String × String)) (p : String) :
    (fsLookup d p).isSome = true ↔ p ∈ fsPaths d := by
  induction d with
  | nil => simp [fsLookup, fsPaths]
  | cons e es ih =>
    simp only [fsPaths, List.map_cons, List.mem_cons]
    by_cases h : e.1 = p
    · simp [fsLookup, h]
    · rw [fsLookup, if_neg h, ih]
      simp only [fsPaths]
      constructor
      · exact fun hm => .inr hm
      · rintro (rfl | hm)
        · exact absurd rfl h
        · exact hm

theorem mem_fsPaths_setFile (d : List (String × String)) (p c : String) (q : String) :
    q ∈ fsPaths (setFile d p c) ↔ q = p ∨ q ∈ fsPaths d := by
  simp only [setFile, fsPaths, List.map_append, List.mem_append, List.map_cons,
    List.map_nil, List.mem_cons, List.mem_map, List.mem_filter]
  constructor
  · rintro (⟨e, ⟨he, hne⟩, rfl⟩ | h | h)
    · exact .inr ⟨e, he, rfl⟩
    · exact .inl h
    · cases h
  · rintro (rfl | ⟨e, he, rfl⟩)
    · exact .inr (.inl rfl)
    · by_cases hq : e.1 = p
      · exact .inr (.inl hq)
      · exact .inl ⟨e, ⟨he, by simpa using hq⟩, rfl⟩

theorem mem_fsPaths_restore (S : List (String × String)) :
    ∀ (d : List (String × String)) (r : Bool) (q : String),
      q ∈ fsPaths (restore_kept_files S d r) ↔ q ∈ fsPaths d ∨ q ∈ fsPaths S := by
  induction S with
  | nil =>
    intro d r q
    simp [restore_kept_files, fsPaths]
  | cons e es ih =>
    intro d r q
    rw [restore_kept_files]
    by_cases hcond : (r = true ∨ (fsLookup d e.1).isNone = true)
    · rw [if_pos hcond, ih]
      rw [mem_fsPaths_setFile]
      simp [fsPaths]
      tauto
    · rw [if_neg hcond]
      rw [ih]
      push_neg at hcond
      have hmem : e.1 ∈ fsPaths d := by
        rw [← fsLookup_isSome_iff_mem]
        cases hlk : fsLookup d e.1 with
        | none => exact absurd (by rw [hlk]; rfl) hcond.2
        | some v => rfl
      simp only [fsPaths, List.map_cons, List.mem_cons]
      constructor
      · rintro (h | h)
        · exact .inl h
        · exact .inr (.inr h)
      · rintro (h | rfl | h)
        · exact .inl h
        · exact .inl hmem
        · exact .inr h

theorem mem_fsPaths_save (F : List (String × String)) (kp : List String) (q : String) :
    q ∈ fsPaths (save_kept_files F kp) ↔ q ∈ fsPaths F ∧ keptFilePred kp q = true := by
  simp only [save_kept_files, fsPaths, List.mem_map, List.mem_filter]
  constructor
  · rintro ⟨e, ⟨he, hk⟩, rfl⟩
    exact ⟨⟨e, he, rfl⟩, hk⟩
  · rintro ⟨⟨e, he, rfl⟩, hk⟩
    exact ⟨e, ⟨he, hk⟩, rfl⟩

theorem fsLookup_append (l1 l2 : List (String × String)) (p : String) :
    fsLookup (l1 ++ l2) p =
      match fsLookup l1 p with
      | some v => some v
      | none => fsLookup l2 p := by
  induction l1 with
  | nil => simp [fsLookup]
  | cons e es ih =>
    by_cases h : e.1 = p <;> simp [fsLookup, h, ih]

theorem fsLookup_filter_self (d : List (String × String)) (p : String) :
    fsLookup (d.filter (fun e => e.1 ≠ p)) p = none := by
  induction d with
  | nil => rfl
  | cons e es ih =>
    rw [List.filter_cons]
    by_cases h : e.1 = p
    · rw [if_neg (by simp [h])]
      exact ih
    · rw [if_pos (by simp [h]), fsLookup, if_neg h]
      exact ih

theorem fsLookup_filter_ne (d : List (String × String)) (p q : String) (h : q ≠ p) :
    fsLookup (d.filter (fun e => e.1 ≠ p)) q = fsLookup d q := by
  induction d with
  | nil => rfl
  | cons e es ih =>
    rw [List.filter_cons]
    by_cases he : e.1 = p
    · have h1 : ¬ e.1 = q := by rw [he]; exact fun hq => h hq.symm
      rw [if_neg (by simp [he]), fsLookup, if_neg h1]
      exact ih
    · rw [if_pos (by simp [he]), fsLookup, fsLookup]
      by_cases h2 : e.1 = q
      · rw [if_pos h2, if_pos h2]
      · rw [if_neg h2, if_neg h2]
        exact ih

theorem fsLookup_setFile_self (d : List (String × String)) (p c : String) :
    fsLookup (setFile d p c) p = some c := by
  rw [setFile, fsLookup_append, fsLookup_filter_self]
  simp [fsLookup]

theorem fsLookup_setFile_ne (d : List (String × String)) (p c q : String) (h : q ≠ p) :
    fsLookup (setFile d p c) q = fsLookup d q := by
  rw [setFile, fsLookup_append, fsLookup_filter_ne d p q h]
  cases hd : fsLookup d q with
  | some v => rfl
  | none => simp [fsLookup, Ne.symm h]

theorem fsLookup_restore_not_mem (S : List (String × String)) :
    ∀ (d : List (String × String)) (r : Bool) (p : String), p ∉ fsPaths S →
      fsLookup (restore_kept_files S d r) p = fsLookup d p := by
  induction S with
  | nil =>
    intro d r p _
    rfl
  | cons e es ih =>
    intro d r p hp
    have hne : p ≠ e.1 := by
      intro hq
      exact hp (by simp [fsPaths, hq])
    have hp' : p ∉ fsPaths es := fun hmem => hp (by simp [fsPaths] at hmem ⊢; exact .inr hmem)
    rw [restore_kept_files]
    by_cases hcond : (r = true ∨ (fsLookup d e.1).isNone = true)
    · rw [if_pos hcond, ih _ r p hp', fsLookup_setFile_ne d e.1 e.2 p hne]
    · rw [if_neg hcond, ih _ r p hp']

theorem fsLookup_restore_all (S : List (String × String)) :
    ∀ (d : List (String × String)) (p c : String),
      (fsPaths S).Nodup → (p, c) ∈ S →
      fsLookup (restore_kept_files S d true) p = some c := by
  induction S with
  | nil =>
    intro d p c _ hm
    cases hm
  | cons e es ih =>
    intro d p c hnd hm
    have hnd' : e.1 ∉ fsPaths es ∧ (fsPaths es).Nodup := by
      simpa [fsPaths] using hnd
    rw [restore_kept_files, if_pos (.inl rfl)]
    rcases List.mem_cons.mp hm with rfl | hm'
    · have : p ∉ fsPaths es := hnd'.1
      rw [fsLookup_restore_not_mem es _ true p this, fsLookup_setFile_self]
    · exact ih _ p c hnd'.2 hm'

theorem fsLookup_restore_keep (S : List (String × String)) :
    ∀ (d : List (String × String)) (p c : String),
      (fsPaths S).Nodup → (p, c) ∈ S →
      fsLookup (restore_kept_files S d false) p = some ((fsLookup d p).getD c) := by
  induction S with
  | nil =>
    intro d p c _ hm
    cases hm
  | cons e es ih =>
    intro d p c hnd hm
    have hnd' : e.1 ∉ fsPaths es ∧ (fsPaths es).Nodup := by
      simpa [fsPaths] using hnd
    rw [restore_kept_files]
    rcases List.mem_cons.mp hm with rfl | hm'
    · by_cases hd : (fsLookup d p).isNone = true
      · rw [if_pos (.inr hd)]
        rw [fsLookup_restore_not_mem es _ false p hnd'.1, fsLookup_setFile_self]
        rw [Option.isNone_iff_eq_none] at hd
        rw [hd]
        rfl
      · rw [if_neg (by simp [hd])]
        rw [fsLookup_restore_not_mem es d false p hnd'.1]
        cases h : fsLookup d p with
        | some w => rfl
        | none => rw [h] at hd; exact absurd rfl hd
    · have hep : p ≠ e.1 :=
        fun hq => hnd'.1 (hq ▸ List.mem_map.mpr ⟨(p, c), hm', rfl⟩)
      by_cases hcond : ((false = true) ∨ (fsLookup d e.1).isNone = true)
      · rw [if_pos hcond, ih _ p c hnd'.2 hm', fsLookup_setFile_ne d e.1 e.2 p hep]
      · rw [if_neg hcond, ih _ p c hnd'.2 hm']

theorem fsLookup_of_mem_nodup (d : List (String × String)) (p c : String)
    (hnd : (fsPaths d).Nodup) (h : (p, c) ∈ d) : fsLookup d p = some c := by
  induction d with
  | nil => cases h
  | cons e es ih =>
    have hnd' : e.1 ∉ fsPaths es ∧ (fsPaths es).Nodup := by
      simpa [fsPaths] using hnd
    rcases List.mem_cons.mp h with rfl | h'
    · simp [fsLookup]
    · have hep : ¬ e.1 = p :=
        fun hq => hnd'.1 (hq.symm ▸ List.mem_map.mpr ⟨(p, c), h', rfl⟩)
      rw [fsLookup, if_neg hep]
      exact ih hnd'.2 h'

theorem nodup_fsPaths_save (F : List (String × String)) (kp : List String)
    (h : (fsPaths F).Nodup) : (fsPaths (save_kept_files F kp)).Nodup := by
  have hsub : (save_kept_files F kp).Sublist F := List.filter_sublist F
  exact h.sublist (hsub.map Prod.fst)

theorem globMatchF_star (s : List Char) :
    ∀ n, s.length + 2 ≤ n → globMatchF n ['*'] s = true := by
  induction s with
  | nil =>
    intro n hn
    match n, hn with
    | m + 2, _ => rfl
  | cons c cs ih =>
    intro n hn
    match n, hn with
    | m + 1, hn =>
      have h2 : globMatchF m ['*'] cs = true := by
        apply ih
        simp only [List.length_cons] at hn
        omega
      rw [globMatchF]
      simp only [h2, Bool.or_true]

theorem globMatch_star (s : List Char) : globMatch ['*'] s = true := by
  unfold globMatch
  apply globMatchF_star
  have h : (['*'] : List Char).length = 1 := rfl
  omega

theorem keptFilePred_star (f : String) : keptFilePred ["*"] f = true := by
  unfold keptFilePred
  have h : ("*".data.contains '/') = false := by decide
  simp only [h, List.filter_cons, List.filter_nil]
  simp [globMatch_star]

theorem keptFilePatterns_all (cfg : FreezerConfig)
    (h : cfg.removeExtraFiles = false ∨ cfg.skipExisting = true) :
    keptFilePatterns cfg = ["*"] := by
  unfold keptFilePatterns
  rcases h with h | h
  · by_cases hs : cfg.skipExisting = true <;> simp [h, hs]
  · simp [h]

theorem keptFilePred_nil (f : String) : keptFilePred [] f = false := rfl

/-- C8: with the engine deterministic for a fixed application and
configuration (it always starts from an empty destination root, the code
having removed it, and writes the same file set `W`), two consecutive
`Freezer.freeze` runs leave the same set of destination-relative paths:
the first run's output, re-saved and restored through the kept-file
machinery, never changes the second run's path set. -/
theorem freeze_path_set_deterministic (cfg : FreezerConfig) (o1 o2 : EngineOutcome)
    (W : List (String × String)) (fs : FS) (p : String) :
    (p ∈ fsPaths ((freezerFreeze cfg o2 (fun _ => ⟨true, W⟩)
        ((freezerFreeze cfg o1 (fun _ => ⟨true, W⟩) fs).2)).2.files) ↔
      p ∈ fsPaths ((freezerFreeze cfg o1 (fun _ => ⟨true, W⟩) fs).2.files)) := by
  have h2 : (freezerFreeze cfg o2 (fun _ => ⟨true, W⟩)
      ((freezerFreeze cfg o1 (fun _ => ⟨true, W⟩) fs).2)).2.files =
      if keptFilePatterns cfg = [] then W
      else restore_kept_files
        (save_kept_files ((freezerFreeze cfg o1 (fun _ => ⟨true, W⟩) fs).2).files
          (keptFilePatterns cfg)) W cfg.skipExisting :=
    freezerFreeze_files cfg o2 W _
  rw [h2, freezerFreeze_files cfg o1 W fs]
  by_cases hkp : keptFilePatterns cfg = []
  · simp [hkp]
  · rw [if_neg hkp, if_neg hkp]
    rw [mem_fsPaths_restore, mem_fsPaths_restore, mem_fsPaths_save, mem_fsPaths_save,
      mem_fsPaths_restore, mem_fsPaths_save]
    tauto

/-- C9: every file under the destination root whose name matches a
kept-file pattern (with the patterns being `['*']`, matching every file,
when `FREEZER_REMOVE_EXTRA_FILES` is false or `FREEZER_SKIP_EXISTING` is
true) is saved by `save_kept_files` before the tree is removed, and after
the crawl (which wrote the file set `W`): with `FREEZER_SKIP_EXISTING`
false a path the crawl wrote keeps the crawl's content and only paths the
crawl did not write get the saved content back; with
`FREEZER_SKIP_EXISTING` true the saved content overwrites the crawl's
output. -/
theorem kept_files_saved_and_restored (cfg : FreezerConfig) (outcome : EngineOutcome)
    (W : List (String × String)) (fs : FS) (p c : String)
    (hnd : (fsPaths fs.files).Nodup)
    (hmem : (p, c) ∈ fs.files)
    (hkept : keptFilePred (keptFilePatterns cfg) p = true) :
    (fsLookup (save_kept_files fs.files (keptFilePatterns cfg)) p = some c)
    ∧ (cfg.skipExisting = true →
        fsLookup ((freezerFreeze cfg outcome (fun _ => ⟨true, W⟩) fs).2.files) p = some c)
    ∧ (cfg.skipExisting = false → fsLookup W p = none →
        fsLookup ((freezerFreeze cfg outcome (fun _ => ⟨true, W⟩) fs).2.files) p = some c)
    ∧ (cfg.skipExisting = false → ∀ w, fsLookup W p = some w →
        fsLookup ((freezerFreeze cfg outcome (fun _ => ⟨true, W⟩) fs).2.files) p = some w)
    ∧ ((cfg.removeExtraFiles = false ∨ cfg.skipExisting = true) →
        ∀ q, keptFilePred (keptFilePatterns cfg) q = true) := by
  have hkpne : keptFilePatterns cfg ≠ [] := by
    intro hnil
    rw [hnil, keptFilePred_nil] at hkept
    cases hkept
  have hsmem : (p, c) ∈ save_kept_files fs.files (keptFilePatterns cfg) :=
    List.mem_filter.mpr ⟨hmem, hkept⟩
  have hsnd : (fsPaths (save_kept_files fs.files (keptFilePatterns cfg))).Nodup :=
    nodup_fsPaths_save fs.files (keptFilePatterns cfg) hnd
  have hsave : fsLookup (save_kept_files fs.files (keptFilePatterns cfg)) p = some c :=
    fsLookup_of_mem_nodup _ p c hsnd hsmem
  have hfiles : (freezerFreeze cfg outcome (fun _ => ⟨true, W⟩) fs).2.files =
      restore_kept_files (save_kept_files fs.files (keptFilePatterns cfg)) W
        cfg.skipExisting := by
    rw [freezerFreeze_files, if_neg hkpne]
  refine ⟨hsave, ?_, ?_, ?_, ?_⟩
  · intro hskip
    rw [hfiles, hskip]
    exact fsLookup_restore_all _ W p c hsnd hsmem
  · intro hskip hw
    rw [hfiles, hskip, fsLookup_restore_keep _ W p c hsnd hsmem, hw]
    rfl
  · intro hskip w hw
    rw [hfiles, hskip, fsLookup_restore_keep _ W p c hsnd hsmem, hw]
    rfl
  · intro hall q
    rw [keptFilePatterns_all cfg hall]
    exact keptFilePred_star q

/-- Witness for C9: a file `keep.txt` matching the ignore pattern `*.txt`
is saved, and with `FREEZER_SKIP_EXISTING` false it is restored because
the crawl (which wrote only `index.html`) did not write it, while the
crawl's `index.html` keeps the crawl's content. -/
theorem kept_files_saved_and_restored_witness :
    (fsLookup (save_kept_files [("keep.txt", "old"), ("index.html", "stale")]
        (keptFilePatterns ⟨true, ["*.txt"], false⟩)) "keep.txt" = some "old")
    ∧ ((false : Bool) = true →
        fsLookup ((freezerFreeze ⟨true, ["*.txt"], false⟩ (.ok [])
          (fun _ => ⟨true, [("index.html", "new")]⟩)
          ⟨true, [("keep.txt", "old"), ("index.html", "stale")]⟩).2.files) "keep.txt"
          = some "old")
    ∧ ((false : Bool) = false → fsLookup [("index.html", "new")] "keep.txt" = none →
        fsLookup ((freezerFreeze ⟨true, ["*.txt"], false⟩ (.ok [])
          (fun _ => ⟨true, [("index.html", "new")]⟩)
          ⟨true, [("keep.txt", "old"), ("index.html", "stale")]⟩).2.files) "keep.txt"
          = some "old")
    ∧ ((false : Bool) = false → ∀ w, fsLookup [("index.html", "new")] "keep.txt" = some w →
        fsLookup ((freezerFreeze ⟨true, ["*.txt"], false⟩ (.ok [])
          (fun _ => ⟨true, [("index.html", "new")]⟩)
          ⟨true, [("keep.txt", "old"), ("index.html", "stale")]⟩).2.files) "keep.txt"
          = some w)
    ∧ (((⟨true, ["*.txt"], false⟩ : FreezerConfig).removeExtraFiles = false
          ∨ ((⟨true, ["*.txt"], false⟩ : FreezerConfig)).skipExisting = true) →
        ∀ q, keptFilePred (keptFilePatterns ⟨true, ["*.txt"], false⟩) q = true) :=
  kept_files_saved_and_restored ⟨true, ["*.txt"], false⟩ (.ok [])
    [("index.html", "new")] ⟨true, [("keep.txt", "old"), ("index.html", "stale")]⟩
    "keep.txt" "old" (by decide) (by decide) (by decide)

end Freezeyt
